import Mathlib

/-!
Verification of the invoice-payment ReAct workflow (`reAct_beyond_llms.py`).

Shallow embedding conventions:
* money amounts are `Int` values in cents, exactly as the Python integers;
* calendar dates are modelled as `Int` day numbers; "today" is passed
  explicitly (`today : Int`), `timedelta(days = k)` is `+ k`/`- k`;
* `datetime.datetime.now()` timestamps for audit lines come from an oracle
  `tso : Nat → String` indexed by the number of log calls so far, and
  `uuid.uuid4()` values come from an oracle `uo : Nat → String` indexed by
  the loop step, so the embedding is a pure function of explicit inputs;
* Python tuples `(ok, msg, payload)` become Lean products; mutation of the
  `Account` / `Memory` objects becomes explicit state passing;
* the Python substring test `needle in line` is `strContains line needle`.
-/

/-- Substring search on character lists: `substrSearch pat l` is `true`
iff `pat` occurs contiguously inside `l` (the semantics of Python's
`in` operator on strings). -/
def substrSearch (pat : List Char) : List Char → Bool
  | [] => pat.isEmpty
  | c :: rest => pat.isPrefixOf (c :: rest) || substrSearch pat rest

/-- Python's `needle in line` on strings. -/
def strContains (line needle : String) : Bool :=
  substrSearch needle.data line.data

/-- Python's `s.endswith(post)`: suffix test on the characters. -/
def strEndsWith (s post : String) : Bool :=
  post.data.isSuffixOf s.data

/-- `Invoice` dataclass. -/
structure Invoice where
  invoice_id : String
  vendor_id : String
  amount : Int
  currency : String
  due_date : Int
  memo : String
deriving DecidableEq, Repr

/-- `Account` dataclass. -/
structure Account where
  account_id : String
  balance_cents : Int
  daily_limit_cents : Int
  spent_today_cents : Int := 0
deriving DecidableEq, Repr

/-- `PaymentPlan` dataclass. -/
structure PaymentPlan where
  total_cents : Int
  currency : String
  immediate_cents : Int
  scheduled_cents : Int := 0
  scheduled_date : Option Int := none
deriving DecidableEq, Repr

/-- `Memory` dataclass (the spec's WorkflowState). -/
structure Memory where
  invoice : Invoice
  account : Account
  vendor_kyc_ok : Option Bool := none
  vendor_aml_ok : Option Bool := none
  payment_plan : Option PaymentPlan := none
  executed_amount_cents : Int := 0
  scheduled : Bool := false
  errors : List String := []
  audit_log : List String := []
deriving DecidableEq, Repr

/-- `Memory.log`: appends `timestamp | msg` to the audit log.  The
timestamp oracle is indexed by the number of lines logged so far; the
`print` side effect is dropped. -/
def Memory.log (tso : Nat → String) (mem : Memory) (msg : String) : Memory :=
  { mem with audit_log := mem.audit_log ++ [tso mem.audit_log.length ++ " | " ++ msg] }

/-- The fresh `Memory(invoice, account)` built by the demo driver: all
other fields take their dataclass defaults. -/
def freshMemory (inv : Invoice) (acct : Account) : Memory :=
  { invoice := inv, account := acct }

/-- Python `f"{cents/100:.2f}"` for the nonnegative amounts the workflow
formats (negative amounts clamp to 0 here; they are only ever formatted
into log text, which no property reads). -/
def fmtCents (cents : Int) : String :=
  let n := cents.toNat
  toString (n / 100) ++ "." ++ (if n % 100 < 10 then "0" else "") ++ toString (n % 100)

/-- Python `str`-formatting of an optional date. -/
def fmtDate : Option Int → String
  | some d => toString d
  | none => "None"

/-- `tool_validate_invoice`. -/
def tool_validate_invoice (today : Int) (mem : Memory) : Bool × String :=
  let inv := mem.invoice
  if inv.amount ≤ 0 then (false, "Invalid invoice amount.")
  else if inv.currency ∉ ["USD", "EUR", "GBP"] then
    (false, "Unsupported currency " ++ inv.currency ++ ".")
  else if inv.due_date < today - 30 then (false, "Invoice is too old.")
  else (true, "Invoice validated.")

/-- `tool_run_kyc`. -/
def tool_run_kyc (vendor_id : String) : Bool × String :=
  let ok := !(strEndsWith vendor_id "X")
  (ok, if ok then "KYC passed." else "KYC failed.")

/-- `tool_run_aml_screening`. -/
def tool_run_aml_screening (vendor_id : String) : Bool × String :=
  let ok := vendor_id ∉ ["OFAC123", "AML999"]
  (ok, if ok then "AML screening passed." else "AML screening flagged vendor.")

/-- `tool_propose_plan`. -/
def tool_propose_plan (today : Int) (mem : Memory) : Bool × String × PaymentPlan :=
  let inv := mem.invoice
  let acct := mem.account
  let immediate := min inv.amount acct.balance_cents
  let remaining_limit := max 0 (acct.daily_limit_cents - acct.spent_today_cents)
  let immediate := min immediate remaining_limit
  if immediate ≤ 0 then
    (true, "Proposed full scheduling for tomorrow.",
      ⟨inv.amount, inv.currency, 0, inv.amount, some (today + 1)⟩)
  else
    let remainder := inv.amount - immediate
    if remainder > 0 then
      (true, "Proposed split: partial now, remainder tomorrow.",
        ⟨inv.amount, inv.currency, immediate, remainder, some (today + 1)⟩)
    else
      (true, "Proposed full payment now.", ⟨inv.amount, inv.currency, inv.amount, 0, none⟩)

/-- Result of `tool_execute_payment`: the (possibly mutated) account plus
the Python return tuple `(ok, msg, txn_id)`. -/
structure ExecResult where
  acct : Account
  ok : Bool
  msg : String
  txn : String
deriving DecidableEq, Repr

/-- `tool_execute_payment`; `u` is the `uuid.uuid4()` value drawn inside
the Python function. -/
def tool_execute_payment (acct : Account) (cents : Int) (currency : String) (u : String) :
    ExecResult :=
  if cents ≤ 0 then ⟨acct, true, "Nothing to execute.", u⟩
  else if acct.balance_cents < cents then
    ⟨acct, false, "Execution failed: insufficient funds.", ""⟩
  else
    let acct2 : Account :=
      { acct with
          balance_cents := acct.balance_cents - cents
          spent_today_cents := acct.spent_today_cents + cents }
    ⟨acct2, true, "Executed " ++ fmtCents cents ++ " " ++ currency ++ ".", u⟩

/-- `tool_schedule_payment`; `u` is the `uuid.uuid4()` value drawn inside
the Python function. -/
def tool_schedule_payment (date : Option Int) (cents : Int) (currency : String) (u : String) :
    Bool × String × String :=
  if cents ≤ 0 then (true, "Nothing to schedule.", u)
  else (true, "Scheduled " ++ fmtCents cents ++ " " ++ currency ++ " for " ++ fmtDate date ++ ".",
    "SCH-" ++ u)

/-- `Reasoner.next_action`: the planner's guard chain, re-derived from the
data on every call.  The Python `mem.payment_plan.immediate_cents`
accesses after the `is None` test become a `match`. -/
def Reasoner.next_action (mem : Memory) : Option String :=
  if !(mem.audit_log.any fun line => strContains line "Invoice validated.") then
    some "validate_invoice"
  else if mem.vendor_kyc_ok.isNone then some "run_kyc"
  else if mem.vendor_aml_ok.isNone then some "run_aml"
  else match mem.payment_plan with
    | none => some "propose_plan"
    | some plan =>
      if mem.executed_amount_cents < plan.immediate_cents then some "execute_immediate"
      else if !mem.scheduled && plan.scheduled_cents > 0 then some "schedule_remainder"
      else none

/-- One iteration of `run_episode`'s `while True` body: the resulting
memory, whether the loop continues (`cont = false` means `break`), the
chosen action (`none` for the terminal `Done` thought), and the
dispatched handler's success flag (`true` when no handler ran). -/
structure StepOut where
  mem : Memory
  cont : Bool
  act : Option String
  ok : Bool
deriving DecidableEq, Repr

/-- The body of `run_episode`'s loop for step number `step` (Python
increments `step` before consulting the planner, so the first call is
made with `step = 1`). -/
def runStep (today : Int) (tso uo : Nat → String) (step : Nat) (mem : Memory) : StepOut :=
  match Reasoner.next_action mem with
  | none => ⟨Memory.log tso mem ("Thought " ++ toString step ++ ": Done."), false, none, true⟩
  | some action =>
    let mem := Memory.log tso mem
      ("Thought " ++ toString step ++ ": Deciding to '" ++ action ++ "'.")
    if action = "validate_invoice" then
      let r := tool_validate_invoice today mem
      let mem := Memory.log tso mem ("Action " ++ toString step ++ ": validate_invoice()")
      let mem := Memory.log tso mem ("Observation " ++ toString step ++ ": " ++ r.2)
      ⟨mem, r.1, some action, r.1⟩
    else if action = "run_kyc" then
      let r := tool_run_kyc mem.invoice.vendor_id
      let mem := { mem with vendor_kyc_ok := some r.1 }
      let mem := Memory.log tso mem
        ("Action " ++ toString step ++ ": run_kyc(" ++ mem.invoice.vendor_id ++ ")")
      let mem := Memory.log tso mem ("Observation " ++ toString step ++ ": " ++ r.2)
      ⟨mem, r.1, some action, r.1⟩
    else if action = "run_aml" then
      let r := tool_run_aml_screening mem.invoice.vendor_id
      let mem := { mem with vendor_aml_ok := some r.1 }
      let mem := Memory.log tso mem
        ("Action " ++ toString step ++ ": run_aml(" ++ mem.invoice.vendor_id ++ ")")
      let mem := Memory.log tso mem ("Observation " ++ toString step ++ ": " ++ r.2)
      ⟨mem, r.1, some action, r.1⟩
    else if action = "propose_plan" then
      let r := tool_propose_plan today mem
      let mem := { mem with payment_plan := if r.1 then some r.2.2 else none }
      let mem := Memory.log tso mem ("Action " ++ toString step ++ ": propose_plan()")
      let mem := Memory.log tso mem ("Observation " ++ toString step ++ ": " ++ r.2.1)
      ⟨mem, true, some action, r.1⟩
    else if action = "execute_immediate" then
      match mem.payment_plan with
      | none =>
        -- Unreachable when `action` comes from the planner (the guard for
        -- `execute_immediate` requires a plan); the Python attribute access
        -- would raise here, modelled as an aborted run.
        ⟨mem, false, some action, false⟩
      | some plan =>
        let cents := plan.immediate_cents
        let r := tool_execute_payment mem.account cents plan.currency (uo step)
        let mem := { mem with account := r.acct }
        let mem := Memory.log tso mem
          ("Action " ++ toString step ++ ": execute_payment(" ++ fmtCents cents ++ " "
            ++ plan.currency ++ ")")
        let mem := Memory.log tso mem
          ("Observation " ++ toString step ++ ": " ++ r.msg ++ " (txn=" ++ r.txn ++ ")")
        let mem := if r.ok then { mem with executed_amount_cents := cents } else mem
        ⟨mem, true, some action, r.ok⟩
    else if action = "schedule_remainder" then
      match mem.payment_plan with
      | none =>
        -- Unreachable for planner-chosen actions, as above.
        ⟨mem, false, some action, false⟩
      | some plan =>
        let cents := plan.scheduled_cents
        let date := plan.scheduled_date
        let r := tool_schedule_payment date cents plan.currency (uo step)
        let mem := Memory.log tso mem
          ("Action " ++ toString step ++ ": schedule_payment(" ++ fmtCents cents ++ " "
            ++ plan.currency ++ " on " ++ fmtDate date ++ ")")
        let mem := Memory.log tso mem
          ("Observation " ++ toString step ++ ": " ++ r.2.1 ++ " (id=" ++ r.2.2 ++ ")")
        let mem := if r.1 then { mem with scheduled := true } else mem
        ⟨mem, true, some action, r.1⟩
    else
      -- No `elif` matches: the Python loop would spin without logging.
      ⟨mem, true, some action, true⟩

/-- `run_episode`, with explicit fuel (the Python loop is `while True`;
the spec flags its potential divergence).  Returns the final memory, a
flag that is `true` iff the loop reached `break` within `fuel`
iterations, and the trace of `(chosen action, handler success)` pairs,
one per iteration (`none` marks the terminal `Done` iteration). -/
def run_episode (today : Int) (tso uo : Nat → String) :
    Nat → Nat → Memory → Memory × Bool × List (Option String × Bool)
  | 0, _, mem => (mem, false, [])
  | fuel + 1, step, mem =>
    let out := runStep today tso uo (step + 1) mem
    if out.cont then
      let r := run_episode today tso uo fuel (step + 1) out.mem
      (r.1, r.2.1, (out.act, out.ok) :: r.2.2)
    else
      (out.mem, true, [(out.act, out.ok)])

/-!  Spec-side definitions (used only to state refinement claims). -/

/-- Spec-side phrasing of "an audit entry records successful validation". -/
def specValidationRecorded (mem : Memory) : Prop :=
  ∃ line ∈ mem.audit_log, strContains line "Invoice validated." = true

instance (mem : Memory) : Decidable (specValidationRecorded mem) := by
  unfold specValidationRecorded
  infer_instance

/-- The planner guard chain exactly as the spec words it (claim C1):
first-match over the six guards, each stated with its full conjunction of
preconditions, else the terminal `none`.  Written from the spec's words,
to be compared with `Reasoner.next_action` (written from the source). -/
def specNextAction (mem : Memory) : Option String :=
  if ¬ specValidationRecorded mem then some "validate_invoice"
  else if specValidationRecorded mem ∧ mem.vendor_kyc_ok = none then some "run_kyc"
  else if mem.vendor_kyc_ok ≠ none ∧ mem.vendor_aml_ok = none then some "run_aml"
  else if mem.vendor_aml_ok ≠ none ∧ mem.payment_plan = none then some "propose_plan"
  else
    match mem.payment_plan with
    | none => none
    | some plan =>
      if mem.executed_amount_cents < plan.immediate_cents then some "execute_immediate"
      else if plan.immediate_cents ≤ mem.executed_amount_cents ∧ mem.scheduled = false ∧
          plan.scheduled_cents > 0 then
        some "schedule_remainder"
      else none

/-!  Helper lemmas. -/

theorem specValidationRecorded_iff_any (mem : Memory) :
    specValidationRecorded mem ↔
      (mem.audit_log.any fun line => strContains line "Invoice validated.") = true := by
  unfold specValidationRecorded
  simp [List.any_eq_true]

/-- C1: the planner is a pure function of the workflow state evaluating
the spec's guard chain in the spec's order; the source guard chain and
the spec guard chain agree on every state. -/
theorem nextAction_refines_spec (mem : Memory) :
    Reasoner.next_action mem = specNextAction mem := by
  unfold Reasoner.next_action specNextAction
  rcases hv : (mem.audit_log.any fun line => strContains line "Invoice validated.") with _ | _ <;>
    rcases hk : mem.vendor_kyc_ok with _ | bk <;>
      rcases ha : mem.vendor_aml_ok with _ | ba <;>
        rcases hp : mem.payment_plan with _ | plan <;>
          rcases hs : mem.scheduled with _ | _ <;>
            simp [specValidationRecorded_iff_any, hv, hk, ha, hp, hs]
  split_ifs <;> simp_all

/-- Python's `s.startswith(pre)` (used to state "fails with message M"
as: the result message begins with the quoted text M). -/
def strStartsWith (s pre : String) : Bool :=
  pre.data.isPrefixOf s.data

/-- Shared inversion lemma: when the planner picks `execute_immediate`
or `schedule_remainder` the state holds a payment plan. -/
theorem nextAction_plan_isSome (mem : Memory)
    (h : Reasoner.next_action mem = some "execute_immediate" ∨
      Reasoner.next_action mem = some "schedule_remainder") :
    mem.payment_plan ≠ none := by
  intro hp
  rcases h with h | h <;> unfold Reasoner.next_action at h <;> rw [hp] at h <;>
    split_ifs at h <;> simp_all

/-- C10: whenever the planner returns `execute_immediate` or
`schedule_remainder`, a payment plan exists, so the orchestrator's
dispatch reads of `payment_plan.immediate_cents`, `scheduled_cents`,
`scheduled_date` and `currency` never hit a missing plan (in `runStep`
those branches match on exactly this `some`). -/
theorem dispatch_plan_exists (mem : Memory)
    (h : Reasoner.next_action mem = some "execute_immediate" ∨
      Reasoner.next_action mem = some "schedule_remainder") :
    ∃ plan, mem.payment_plan = some plan := by
  have hne := nextAction_plan_isSome mem h
  cases hp : mem.payment_plan with
  | none => exact absurd hp hne
  | some plan => exact ⟨plan, rfl⟩

/-- Concrete state used by witnesses: a validated, screened state with a
half-executed plan. -/
def memW10 : Memory :=
  { invoice := ⟨"I-1", "V-1", 100, "USD", 0, "m"⟩
    account := ⟨"A-1", 100, 100, 0⟩
    vendor_kyc_ok := some true
    vendor_aml_ok := some true
    payment_plan := some ⟨100, "USD", 50, 50, some 1⟩
    executed_amount_cents := 0
    scheduled := false
    errors := []
    audit_log := ["T0 | Observation 1: Invoice validated."] }

theorem dispatch_plan_exists_witness :
    (Reasoner.next_action memW10 = some "execute_immediate" ∨
      Reasoner.next_action memW10 = some "schedule_remainder") ∧
    ∃ plan, memW10.payment_plan = some plan :=
  ⟨Or.inl (by decide), dispatch_plan_exists memW10 (Or.inl (by decide))⟩

/-- The zero/negative-amount no-op property of the two payment tools
(claim C8).  `tool_schedule_payment` does not even receive the account,
so it cannot mutate it; `tool_execute_payment` returns the account it
was given, unchanged. -/
def zeroAmountNoOp (acct : Account) (date : Option Int) (cents : Int) (currency u : String) :
    Prop :=
  (tool_execute_payment acct cents currency u).ok = true ∧
  (tool_execute_payment acct cents currency u).acct = acct ∧
  (tool_schedule_payment date cents currency u).1 = true

/-- C8: executing or scheduling a payment of `cents ≤ 0` succeeds and
leaves the account (balance, daily limit, spent-today) untouched. -/
theorem zero_amount_tools_noop (acct : Account) (date : Option Int) (cents : Int)
    (currency u : String) (h : cents ≤ 0) : zeroAmountNoOp acct date cents currency u := by
  unfold zeroAmountNoOp tool_execute_payment tool_schedule_payment
  rw [if_pos h, if_pos h]
  exact ⟨rfl, rfl, rfl⟩

theorem zero_amount_tools_noop_witness : zeroAmountNoOp ⟨"A-1", 100, 100, 0⟩ (some 1) 0 "USD" "U" :=
  zero_amount_tools_noop ⟨"A-1", 100, 100, 0⟩ (some 1) 0 "USD" "U" (by decide)

/-- The validation contract of claim C6.  "fails with message M" is
formalised as: the success flag is `false` and the returned message
begins with the quoted text M (the code's messages carry a trailing
period, and the unsupported-currency message appends the offending
currency).  The function is pure by construction: it returns a pair and
touches no state. -/
def validateInvoiceSpec (today : Int) (mem : Memory) : Prop :=
  let res := tool_validate_invoice today mem
  let inv := mem.invoice
  ((res.1 = false ∧ strStartsWith res.2 "Invalid invoice amount" = true) ↔ inv.amount ≤ 0) ∧
  (0 < inv.amount →
    ((res.1 = false ∧ strStartsWith res.2 "Unsupported currency" = true) ↔
      inv.currency ∉ ["USD", "EUR", "GBP"])) ∧
  (0 < inv.amount → inv.currency ∈ ["USD", "EUR", "GBP"] →
    ((res.1 = false ∧ strStartsWith res.2 "Invoice is too old" = true) ↔
      inv.due_date < today - 30)) ∧
  (0 < inv.amount → inv.currency ∈ ["USD", "EUR", "GBP"] → ¬(inv.due_date < today - 30) →
    res = (true, "Invoice validated."))

/-- C6: `tool_validate_invoice` fails with the invalid-amount message iff
the amount is ≤ 0; failing that, with the unsupported-currency message
iff the currency is outside {USD, EUR, GBP}; failing that, with the
too-old message iff the due date is more than 30 days before today;
otherwise it succeeds. -/
theorem validate_invoice_contract (today : Int) (mem : Memory) : validateInvoiceSpec today mem := by
  unfold validateInvoiceSpec tool_validate_invoice
  dsimp only
  split_ifs with h1 h2 h3 <;> simp_all [strStartsWith]

theorem validate_invoice_contract_witness :
    validateInvoiceSpec 0 (freshMemory ⟨"I-1", "V-1", 100, "USD", 5, "m"⟩ ⟨"A-1", 100, 100, 0⟩) :=
  validate_invoice_contract 0 (freshMemory ⟨"I-1", "V-1", 100, "USD", 5, "m"⟩ ⟨"A-1", 100, 100, 0⟩)

/-- Account already over its daily limit: `spent_today > daily_limit`. -/
def memC2 : Memory :=
  freshMemory ⟨"I-2", "V-2", 100, "USD", 0, "m"⟩ ⟨"A-2", 100, 0, 50⟩

/-- C2 counterexample: with invoice amount 100, balance 100, daily limit
0 and spent-today 50, the proposed plan has immediate portion 0, but
`min(invoice.amount, account.balance, daily_limit - spent_today) = -50`,
so the claimed bound `immediate ≤ min(...)` fails. -/
theorem propose_plan_claimed_bound_fails :
    (tool_propose_plan 0 memC2).2.2.immediate_cents = 0 ∧
    min memC2.invoice.amount (min memC2.account.balance_cents
      (memC2.account.daily_limit_cents - memC2.account.spent_today_cents)) = -50 ∧
    ¬((tool_propose_plan 0 memC2).2.2.immediate_cents ≤
      min memC2.invoice.amount (min memC2.account.balance_cents
        (memC2.account.daily_limit_cents - memC2.account.spent_today_cents))) := by
  decide

/-- The amended plan-proposal contract (claim C2): `computed` is the
immediate amount the code computes; the daily-limit term is clamped at 0
(and hence so is the plan's immediate portion), which is where the
original claim's unclamped bound fails. -/
def proposePlanSpec (today : Int) (mem : Memory) : Prop :=
  let inv := mem.invoice
  let acct := mem.account
  let computed :=
    min (min inv.amount acct.balance_cents) (max 0 (acct.daily_limit_cents - acct.spent_today_cents))
  let r := tool_propose_plan today mem
  let plan := r.2.2
  r.1 = true ∧
  plan.total_cents = inv.amount ∧
  plan.immediate_cents + plan.scheduled_cents = inv.amount ∧
  0 ≤ plan.immediate_cents ∧
  plan.immediate_cents = max 0 computed ∧
  (computed ≤ 0 → plan = ⟨inv.amount, inv.currency, 0, inv.amount, some (today + 1)⟩) ∧
  (0 < computed → computed < inv.amount →
    plan = ⟨inv.amount, inv.currency, computed, inv.amount - computed, some (today + 1)⟩) ∧
  (0 < computed → inv.amount ≤ computed →
    plan = ⟨inv.amount, inv.currency, inv.amount, 0, none⟩)

/-- C2 (amended): `tool_propose_plan` always succeeds with a plan whose
total is the invoice amount, `immediate + scheduled = amount`,
`0 ≤ immediate = max 0 computed`, fully-scheduled-for-tomorrow when
`computed ≤ 0`, split-with-remainder-tomorrow when
`0 < computed < amount`, and full-payment-now otherwise.  The function
mutates nothing: it only returns the triple. -/
theorem propose_plan_contract (today : Int) (mem : Memory) : proposePlanSpec today mem := by
  unfold proposePlanSpec tool_propose_plan
  dsimp only
  split_ifs with h1 h2 <;>
    refine ⟨rfl, rfl, by dsimp only; omega, by dsimp only; omega, by dsimp only; omega,
      fun hc => ?_, fun hc1 hc2 => ?_, fun hc1 hc2 => ?_⟩ <;>
    first
      | rfl
      | (exfalso; omega)

theorem propose_plan_contract_witness :
    proposePlanSpec 0 (freshMemory ⟨"I-1", "V-1", 25000, "USD", 5, "m"⟩ ⟨"A-1", 18000, 50000, 0⟩) :=
  propose_plan_contract 0 (freshMemory ⟨"I-1", "V-1", 25000, "USD", 5, "m"⟩ ⟨"A-1", 18000, 50000, 0⟩)

/-- Account with a zero daily limit (the execute tool never checks it). -/
def acctC3 : Account := ⟨"A-3", 100, 0, 0⟩

/-- C3 counterexample: executing 50 against balance 100, daily limit 0,
spent-today 0 succeeds, and afterwards `spent_today = 50 > 0 =
daily_limit`: `tool_execute_payment` enforces no daily-limit bound, so
the claimed post-state `spent_today ≤ daily_limit` fails. -/
theorem execute_payment_limit_claim_fails :
    (tool_execute_payment acctC3 50 "USD" "U").ok = true ∧
    (tool_execute_payment acctC3 50 "USD" "U").acct.spent_today_cents = 50 ∧
    acctC3.daily_limit_cents = 0 ∧
    ¬((tool_execute_payment acctC3 50 "USD" "U").acct.spent_today_cents ≤
      (tool_execute_payment acctC3 50 "USD" "U").acct.daily_limit_cents) := by
  decide

/-- The amended execute-payment contract (claim C3): the no-op,
insufficient-funds and success cases exactly as claimed, except that
after a success `spent_today ≥ 0` only holds when it was ≥ 0 before, and
`spent_today ≤ daily_limit` only holds when the executed amount still
fits the limit (the tool itself never checks the limit). -/
def executePaymentSpec (acct : Account) (cents : Int) (currency u : String) : Prop :=
  let r := tool_execute_payment acct cents currency u
  (cents ≤ 0 → r = ⟨acct, true, "Nothing to execute.", u⟩) ∧
  (0 < cents → acct.balance_cents < cents →
    r = ⟨acct, false, "Execution failed: insufficient funds.", ""⟩) ∧
  (0 < cents → cents ≤ acct.balance_cents →
    r.ok = true ∧
    r.acct.balance_cents = acct.balance_cents - cents ∧
    r.acct.spent_today_cents = acct.spent_today_cents + cents ∧
    r.acct.daily_limit_cents = acct.daily_limit_cents ∧
    r.acct.account_id = acct.account_id ∧
    0 ≤ r.acct.balance_cents ∧
    (0 ≤ acct.spent_today_cents → 0 < r.acct.spent_today_cents) ∧
    (acct.spent_today_cents + cents ≤ acct.daily_limit_cents →
      r.acct.spent_today_cents ≤ r.acct.daily_limit_cents) ∧
    r.txn = u)

/-- C3 (amended): `tool_execute_payment` is a no-op success for
`cents ≤ 0`; fails with the insufficient-funds message leaving the
account unchanged when `0 < cents` and `balance < cents`; otherwise
succeeds, decrements the balance and increments spent-today by exactly
`cents` (balance stays ≥ 0; spent-today stays ≥ 0 / within the limit
under the stated preconditions) and returns the fresh identifier. -/
theorem execute_payment_contract (acct : Account) (cents : Int) (currency u : String) :
    executePaymentSpec acct cents currency u := by
  unfold executePaymentSpec tool_execute_payment
  dsimp only
  split_ifs with h1 h2 <;>
    refine ⟨fun hc => ?_, fun hc1 hc2 => ?_, fun hc1 hc2 => ?_⟩ <;>
    first
      | rfl
      | (exfalso; omega)
      | (refine ⟨rfl, rfl, rfl, rfl, rfl, by dsimp only; omega, by dsimp only; omega,
          by dsimp only; omega, rfl⟩)

theorem execute_payment_contract_witness : executePaymentSpec ⟨"A-1", 100, 100, 0⟩ 40 "USD" "U" :=
  execute_payment_contract ⟨"A-1", 100, 100, 0⟩ 40 "USD" "U"

/-- Scenario A invoice: 25000 cents, USD, due 5 days after "today" (day 0). -/
def invA : Invoice := ⟨"INV-1001", "ACME_CO", 25000, "USD", 5, "Monthly hosting fee"⟩

/-- Scenario A account: balance 18000, daily limit 50000, spent 0. -/
def acctA : Account := ⟨"OPERATING-USD", 18000, 50000, 0⟩

/-- A fixed timestamp oracle for concrete runs. -/
def tsoA : Nat → String := fun _ => "TS"

/-- A fixed uuid oracle for concrete runs. -/
def uoA : Nat → String := fun n => "U" ++ toString n

/-- The Scenario A episode (7 loop iterations suffice). -/
def runA : Memory × Bool × List (Option String × Bool) :=
  run_episode 0 tsoA uoA 7 0 (freshMemory invA acctA)

/-- C5 (Scenario A): the run halts via `done`; the iterations are, in
order, validate → kyc → aml → propose → execute → schedule → done, each
handler succeeding; the proposed plan is the split ⟨total 25000, USD,
immediate 18000, scheduled 7000, tomorrow = day 1⟩; 18000 is executed
and 7000 scheduled; the final account has balance 0 and spent-today
18000. -/
theorem scenarioA_run :
    runA.2.1 = true ∧
    runA.2.2 = [(some "validate_invoice", true), (some "run_kyc", true), (some "run_aml", true),
      (some "propose_plan", true), (some "execute_immediate", true),
      (some "schedule_remainder", true), (none, true)] ∧
    runA.1.payment_plan = some ⟨25000, "USD", 18000, 7000, some 1⟩ ∧
    runA.1.account = ⟨"OPERATING-USD", 0, 50000, 18000⟩ ∧
    runA.1.executed_amount_cents = 18000 ∧
    runA.1.scheduled = true :=
  ⟨rfl, rfl, rfl, rfl, rfl, rfl⟩

/-- The planner's first guard, as a reusable abbreviation: some audit
line contains the successful-validation message. -/
def validationLogged (mem : Memory) : Bool :=
  mem.audit_log.any fun line => strContains line "Invoice validated."

/-- An audit line of the run: `timestamp | message`. -/
def mkLine (tso : Nat → String) (n : Nat) (msg : String) : String :=
  tso n ++ " | " ++ msg

theorem na_validate (mem : Memory) (h : validationLogged mem = false) :
    Reasoner.next_action mem = some "validate_invoice" := by
  unfold Reasoner.next_action
  unfold validationLogged at h
  simp [h]

theorem na_kyc (mem : Memory) (h : validationLogged mem = true) (hk : mem.vendor_kyc_ok = none) :
    Reasoner.next_action mem = some "run_kyc" := by
  unfold Reasoner.next_action
  unfold validationLogged at h
  simp [h, hk]

theorem na_aml (mem : Memory) (h : validationLogged mem = true) (b : Bool)
    (hk : mem.vendor_kyc_ok = some b) (ha : mem.vendor_aml_ok = none) :
    Reasoner.next_action mem = some "run_aml" := by
  unfold Reasoner.next_action
  unfold validationLogged at h
  simp [h, hk, ha]

theorem na_propose (mem : Memory) (h : validationLogged mem = true) (b b' : Bool)
    (hk : mem.vendor_kyc_ok = some b) (ha : mem.vendor_aml_ok = some b')
    (hp : mem.payment_plan = none) : Reasoner.next_action mem = some "propose_plan" := by
  unfold Reasoner.next_action
  unfold validationLogged at h
  simp [h, hk, ha, hp]

theorem na_exec (mem : Memory) (h : validationLogged mem = true) (b b' : Bool)
    (hk : mem.vendor_kyc_ok = some b) (ha : mem.vendor_aml_ok = some b') (p : PaymentPlan)
    (hp : mem.payment_plan = some p) (hlt : mem.executed_amount_cents < p.immediate_cents) :
    Reasoner.next_action mem = some "execute_immediate" := by
  unfold Reasoner.next_action
  unfold validationLogged at h
  simp [h, hk, ha, hp, hlt]

theorem na_sched (mem : Memory) (h : validationLogged mem = true) (b b' : Bool)
    (hk : mem.vendor_kyc_ok = some b) (ha : mem.vendor_aml_ok = some b') (p : PaymentPlan)
    (hp : mem.payment_plan = some p) (hge : ¬mem.executed_amount_cents < p.immediate_cents)
    (hs : mem.scheduled = false) (hpos : p.scheduled_cents > 0) :
    Reasoner.next_action mem = some "schedule_remainder" := by
  unfold Reasoner.next_action
  unfold validationLogged at h
  simp [h, hk, ha, hp, hge, hs, hpos]

theorem na_done (mem : Memory) (h : validationLogged mem = true) (b b' : Bool)
    (hk : mem.vendor_kyc_ok = some b) (ha : mem.vendor_aml_ok = some b') (p : PaymentPlan)
    (hp : mem.payment_plan = some p) (hge : ¬mem.executed_amount_cents < p.immediate_cents)
    (hterm : mem.scheduled = true ∨ p.scheduled_cents ≤ 0) :
    Reasoner.next_action mem = none := by
  unfold Reasoner.next_action
  unfold validationLogged at h
  rcases hterm with hs | hpos
  · simp [h, hk, ha, hp, hge, hs]
  · rcases hs : mem.scheduled <;> simp [h, hk, ha, hp, hge, hs] <;> omega

theorem tool_schedule_ok (date : Option Int) (cents : Int) (currency u : String) :
    (tool_schedule_payment date cents currency u).1 = true := by
  unfold tool_schedule_payment
  split_ifs <;> rfl

theorem tool_validate_true_msg (today : Int) (mem : Memory)
    (h : (tool_validate_invoice today mem).1 = true) :
    (tool_validate_invoice today mem).2 = "Invoice validated." := by
  unfold tool_validate_invoice at *
  dsimp only at h ⊢
  split_ifs at h ⊢ <;> simp_all

theorem runStep_done (today : Int) (tso uo : Nat → String) (step : Nat) (mem : Memory)
    (h : Reasoner.next_action mem = none) :
    runStep today tso uo step mem =
      ⟨{ mem with audit_log := mem.audit_log ++
          [mkLine tso mem.audit_log.length ("Thought " ++ toString step ++ ": Done.")] },
        false, none, true⟩ := by
  unfold runStep
  rw [h]
  rfl

theorem runStep_validate (today : Int) (tso uo : Nat → String) (step : Nat) (mem : Memory)
    (h : Reasoner.next_action mem = some "validate_invoice") :
    runStep today tso uo step mem =
      ⟨{ mem with audit_log := mem.audit_log ++
          [mkLine tso mem.audit_log.length
            ("Thought " ++ toString step ++ ": Deciding to 'validate_invoice'."),
           mkLine tso (mem.audit_log.length + 1)
            ("Action " ++ toString step ++ ": validate_invoice()"),
           mkLine tso (mem.audit_log.length + 2)
            ("Observation " ++ toString step ++ ": " ++ (tool_validate_invoice today mem).2)] },
        (tool_validate_invoice today mem).1, some "validate_invoice",
        (tool_validate_invoice today mem).1⟩ := by
  unfold runStep
  rw [h]
  simp [Memory.log, mkLine, String.append_assoc, List.append_assoc]
  exact ⟨rfl, rfl⟩

theorem tool_propose_ok (today : Int) (mem : Memory) : (tool_propose_plan today mem).1 = true := by
  unfold tool_propose_plan
  dsimp only
  split_ifs <;> rfl

theorem runStep_kyc (today : Int) (tso uo : Nat → String) (step : Nat) (mem : Memory)
    (h : Reasoner.next_action mem = some "run_kyc") :
    runStep today tso uo step mem =
      ⟨{ mem with
          vendor_kyc_ok := some (tool_run_kyc mem.invoice.vendor_id).1
          audit_log := mem.audit_log ++
            [mkLine tso mem.audit_log.length
              ("Thought " ++ toString step ++ ": Deciding to 'run_kyc'."),
             mkLine tso (mem.audit_log.length + 1)
              ("Action " ++ toString step ++ ": run_kyc(" ++ mem.invoice.vendor_id ++ ")"),
             mkLine tso (mem.audit_log.length + 2)
              ("Observation " ++ toString step ++ ": " ++ (tool_run_kyc mem.invoice.vendor_id).2)] },
        (tool_run_kyc mem.invoice.vendor_id).1, some "run_kyc",
        (tool_run_kyc mem.invoice.vendor_id).1⟩ := by
  unfold runStep
  rw [h]
  simp [Memory.log, mkLine, String.append_assoc, List.append_assoc]

theorem runStep_aml (today : Int) (tso uo : Nat → String) (step : Nat) (mem : Memory)
    (h : Reasoner.next_action mem = some "run_aml") :
    runStep today tso uo step mem =
      ⟨{ mem with
          vendor_aml_ok := some (tool_run_aml_screening mem.invoice.vendor_id).1
          audit_log := mem.audit_log ++
            [mkLine tso mem.audit_log.length
              ("Thought " ++ toString step ++ ": Deciding to 'run_aml'."),
             mkLine tso (mem.audit_log.length + 1)
              ("Action " ++ toString step ++ ": run_aml(" ++ mem.invoice.vendor_id ++ ")"),
             mkLine tso (mem.audit_log.length + 2)
              ("Observation " ++ toString step ++ ": "
                ++ (tool_run_aml_screening mem.invoice.vendor_id).2)] },
        (tool_run_aml_screening mem.invoice.vendor_id).1, some "run_aml",
        (tool_run_aml_screening mem.invoice.vendor_id).1⟩ := by
  unfold runStep
  rw [h]
  simp [Memory.log, mkLine, String.append_assoc, List.append_assoc]

theorem runStep_propose (today : Int) (tso uo : Nat → String) (step : Nat) (mem : Memory)
    (h : Reasoner.next_action mem = some "propose_plan") :
    runStep today tso uo step mem =
      ⟨{ mem with
          payment_plan := some (tool_propose_plan today mem).2.2
          audit_log := mem.audit_log ++
            [mkLine tso mem.audit_log.length
              ("Thought " ++ toString step ++ ": Deciding to 'propose_plan'."),
             mkLine tso (mem.audit_log.length + 1)
              ("Action " ++ toString step ++ ": propose_plan()"),
             mkLine tso (mem.audit_log.length + 2)
              ("Observation " ++ toString step ++ ": " ++ (tool_propose_plan today mem).2.1)] },
        true, some "propose_plan", true⟩ := by
  unfold runStep
  rw [h]
  simp [Memory.log, mkLine, String.append_assoc, List.append_assoc, tool_propose_ok]
  all_goals exact ⟨rfl, rfl⟩

theorem runStep_exec (today : Int) (tso uo : Nat → String) (step : Nat) (mem : Memory)
    (p : PaymentPlan) (h : Reasoner.next_action mem = some "execute_immediate")
    (hp : mem.payment_plan = some p) :
    runStep today tso uo step mem =
      ⟨{ mem with
          account := (tool_execute_payment mem.account p.immediate_cents p.currency (uo step)).acct
          executed_amount_cents :=
            if (tool_execute_payment mem.account p.immediate_cents p.currency (uo step)).ok then
              p.immediate_cents
            else mem.executed_amount_cents
          audit_log := mem.audit_log ++
            [mkLine tso mem.audit_log.length
              ("Thought " ++ toString step ++ ": Deciding to 'execute_immediate'."),
             mkLine tso (mem.audit_log.length + 1)
              ("Action " ++ toString step ++ ": execute_payment(" ++ fmtCents p.immediate_cents
                ++ " " ++ p.currency ++ ")"),
             mkLine tso (mem.audit_log.length + 2)
              ("Observation " ++ toString step ++ ": "
                ++ (tool_execute_payment mem.account p.immediate_cents p.currency (uo step)).msg
                ++ " (txn="
                ++ (tool_execute_payment mem.account p.immediate_cents p.currency (uo step)).txn
                ++ ")")] },
        true, some "execute_immediate",
        (tool_execute_payment mem.account p.immediate_cents p.currency (uo step)).ok⟩ := by
  unfold runStep
  rw [h]
  simp only [Memory.log]
  rw [show ({ mem with audit_log := mem.audit_log ++
      [tso mem.audit_log.length ++ " | "
        ++ ("Thought " ++ toString step ++ ": Deciding to '" ++ "execute_immediate" ++ "'.")] }
    : Memory).payment_plan = some p from hp]
  rcases hok : (tool_execute_payment mem.account p.immediate_cents p.currency (uo step)).ok with _ | _ <;>
    simp [Memory.log, mkLine, String.append_assoc, List.append_assoc, hok]

theorem runStep_sched (today : Int) (tso uo : Nat → String) (step : Nat) (mem : Memory)
    (p : PaymentPlan) (h : Reasoner.next_action mem = some "schedule_remainder")
    (hp : mem.payment_plan = some p) :
    runStep today tso uo step mem =
      ⟨{ mem with
          scheduled := true
          audit_log := mem.audit_log ++
            [mkLine tso mem.audit_log.length
              ("Thought " ++ toString step ++ ": Deciding to 'schedule_remainder'."),
             mkLine tso (mem.audit_log.length + 1)
              ("Action " ++ toString step ++ ": schedule_payment(" ++ fmtCents p.scheduled_cents
                ++ " " ++ p.currency ++ " on " ++ fmtDate p.scheduled_date ++ ")"),
             mkLine tso (mem.audit_log.length + 2)
              ("Observation " ++ toString step ++ ": "
                ++ (tool_schedule_payment p.scheduled_date p.scheduled_cents p.currency (uo step)).2.1
                ++ " (id="
                ++ (tool_schedule_payment p.scheduled_date p.scheduled_cents p.currency (uo step)).2.2
                ++ ")")] },
        true, some "schedule_remainder", true⟩ := by
  unfold runStep
  rw [h]
  simp only [Memory.log]
  rw [show ({ mem with audit_log := mem.audit_log ++
      [tso mem.audit_log.length ++ " | "
        ++ ("Thought " ++ toString step ++ ": Deciding to '" ++ "schedule_remainder" ++ "'.")] }
    : Memory).payment_plan = some p from hp]
  simp [Memory.log, mkLine, String.append_assoc, List.append_assoc, tool_schedule_ok]

theorem nextAction_cases (mem : Memory) :
    Reasoner.next_action mem = none ∨
    Reasoner.next_action mem = some "validate_invoice" ∨
    Reasoner.next_action mem = some "run_kyc" ∨
    Reasoner.next_action mem = some "run_aml" ∨
    Reasoner.next_action mem = some "propose_plan" ∨
    Reasoner.next_action mem = some "execute_immediate" ∨
    Reasoner.next_action mem = some "schedule_remainder" := by
  unfold Reasoner.next_action
  rcases mem.payment_plan with _ | p <;> split_ifs <;> simp <;> split_ifs <;> simp_all

theorem na_exec_inv (mem : Memory) (h : Reasoner.next_action mem = some "execute_immediate") :
    validationLogged mem = true ∧ mem.vendor_kyc_ok ≠ none ∧ mem.vendor_aml_ok ≠ none ∧
    ∃ p, mem.payment_plan = some p ∧ mem.executed_amount_cents < p.immediate_cents := by
  unfold Reasoner.next_action at h
  unfold validationLogged
  rcases hp : mem.payment_plan with _ | p <;> rw [hp] at h <;> split_ifs at h <;> simp_all

theorem any_append_left {l : List String} (f : String → Bool) (ls : List String)
    (h : l.any f = true) : (l ++ ls).any f = true := by
  simp [List.any_append, h]

/-- The four terminal conditions of the orchestrator loop (claim C4). -/
def haltCondition (today : Int) (mem : Memory) : Prop :=
  Reasoner.next_action mem = none ∨
  (Reasoner.next_action mem = some "validate_invoice" ∧
    (tool_validate_invoice today mem).1 = false) ∨
  (Reasoner.next_action mem = some "run_kyc" ∧
    (tool_run_kyc mem.invoice.vendor_id).1 = false) ∨
  (Reasoner.next_action mem = some "run_aml" ∧
    (tool_run_aml_screening mem.invoice.vendor_id).1 = false)

/-- C4: a loop iteration breaks exactly when the planner returns done or
the validation / KYC / AML handler fails; failures of the other handlers
(only `execute_payment` can actually fail) never break the loop, and a
failed execution leaves the planner re-selecting `execute_immediate`. -/
def loopHaltSpec (today : Int) (tso uo : Nat → String) (step : Nat) (mem : Memory) : Prop :=
  ((runStep today tso uo step mem).cont = false ↔ haltCondition today mem) ∧
  (∀ p, mem.payment_plan = some p →
    Reasoner.next_action mem = some "execute_immediate" →
    (tool_execute_payment mem.account p.immediate_cents p.currency (uo step)).ok = false →
    Reasoner.next_action (runStep today tso uo step mem).mem = some "execute_immediate")

theorem loop_halts_exactly_on (today : Int) (tso uo : Nat → String) (step : Nat) (mem : Memory) :
    loopHaltSpec today tso uo step mem := by
  constructor
  · rcases nextAction_cases mem with h | h | h | h | h | h | h
    · rw [runStep_done today tso uo step mem h]
      simp [haltCondition, h]
    · rw [runStep_validate today tso uo step mem h]
      simp [haltCondition, h]
    · rw [runStep_kyc today tso uo step mem h]
      simp [haltCondition, h]
    · rw [runStep_aml today tso uo step mem h]
      simp [haltCondition, h]
    · rw [runStep_propose today tso uo step mem h]
      simp [haltCondition, h]
    · obtain ⟨p, hp⟩ := dispatch_plan_exists mem (Or.inl h)
      rw [runStep_exec today tso uo step mem p h hp]
      simp [haltCondition, h]
    · obtain ⟨p, hp⟩ := dispatch_plan_exists mem (Or.inr h)
      rw [runStep_sched today tso uo step mem p h hp]
      simp [haltCondition, h]
  · intro p hp hnext hfail
    obtain ⟨hv, hk, ha, q, hq, hlt⟩ := na_exec_inv mem hnext
    rw [hq] at hp
    cases hp
    rw [runStep_exec today tso uo step mem p hnext hq]
    obtain ⟨bk, hbk⟩ := Option.ne_none_iff_exists'.mp hk
    obtain ⟨ba, hba⟩ := Option.ne_none_iff_exists'.mp ha
    refine na_exec _ ?_ bk ba ?_ ?_ p ?_ ?_
    · unfold validationLogged at hv ⊢
      exact any_append_left _ _ hv
    · exact hbk
    · exact hba
    · exact hq
    · simp [hfail, hlt]

theorem loop_halts_exactly_on_witness : loopHaltSpec 0 tsoA uoA 1 (freshMemory invA acctA) :=
  loop_halts_exactly_on 0 tsoA uoA 1 (freshMemory invA acctA)

/-- The amended per-iteration audit contract (claim C7): an iteration in
which the planner picks an action appends exactly three lines — a
Thought naming the action, an `Action ⟨step⟩:` line, an
`Observation ⟨step⟩:` line, in this order — and, per action, those
Action/Observation lines carry exactly the code's invocation text with
its key arguments (vendor id, amount/currency, schedule date) and the
handler's message with any produced identifier (`txn=`/`id=`); the
terminal iteration (the planner returned done) appends exactly ONE
Thought line, not three; in all cases the previous log is an unchanged
prefix. -/
def iterationAuditSpec (today : Int) (tso uo : Nat → String) (step : Nat) (mem : Memory) :
    Prop :=
  (∀ a, Reasoner.next_action mem = some a →
    ∃ s1 s2, (runStep today tso uo step mem).mem.audit_log =
      mem.audit_log ++
        [mkLine tso mem.audit_log.length
          ("Thought " ++ toString step ++ ": Deciding to '" ++ a ++ "'."),
         mkLine tso (mem.audit_log.length + 1) ("Action " ++ toString step ++ ": " ++ s1),
         mkLine tso (mem.audit_log.length + 2) ("Observation " ++ toString step ++ ": " ++ s2)]) ∧
  (Reasoner.next_action mem = some "validate_invoice" →
    (runStep today tso uo step mem).mem.audit_log =
      mem.audit_log ++
        [mkLine tso mem.audit_log.length
          ("Thought " ++ toString step ++ ": Deciding to 'validate_invoice'."),
         mkLine tso (mem.audit_log.length + 1)
          ("Action " ++ toString step ++ ": validate_invoice()"),
         mkLine tso (mem.audit_log.length + 2)
          ("Observation " ++ toString step ++ ": " ++ (tool_validate_invoice today mem).2)]) ∧
  (Reasoner.next_action mem = some "run_kyc" →
    (runStep today tso uo step mem).mem.audit_log =
      mem.audit_log ++
        [mkLine tso mem.audit_log.length
          ("Thought " ++ toString step ++ ": Deciding to 'run_kyc'."),
         mkLine tso (mem.audit_log.length + 1)
          ("Action " ++ toString step ++ ": run_kyc(" ++ mem.invoice.vendor_id ++ ")"),
         mkLine tso (mem.audit_log.length + 2)
          ("Observation " ++ toString step ++ ": " ++ (tool_run_kyc mem.invoice.vendor_id).2)]) ∧
  (Reasoner.next_action mem = some "run_aml" →
    (runStep today tso uo step mem).mem.audit_log =
      mem.audit_log ++
        [mkLine tso mem.audit_log.length
          ("Thought " ++ toString step ++ ": Deciding to 'run_aml'."),
         mkLine tso (mem.audit_log.length + 1)
          ("Action " ++ toString step ++ ": run_aml(" ++ mem.invoice.vendor_id ++ ")"),
         mkLine tso (mem.audit_log.length + 2)
          ("Observation " ++ toString step ++ ": "
            ++ (tool_run_aml_screening mem.invoice.vendor_id).2)]) ∧
  (Reasoner.next_action mem = some "propose_plan" →
    (runStep today tso uo step mem).mem.audit_log =
      mem.audit_log ++
        [mkLine tso mem.audit_log.length
          ("Thought " ++ toString step ++ ": Deciding to 'propose_plan'."),
         mkLine tso (mem.audit_log.length + 1)
          ("Action " ++ toString step ++ ": propose_plan()"),
         mkLine tso (mem.audit_log.length + 2)
          ("Observation " ++ toString step ++ ": " ++ (tool_propose_plan today mem).2.1)]) ∧
  (∀ p, Reasoner.next_action mem = some "execute_immediate" → mem.payment_plan = some p →
    (runStep today tso uo step mem).mem.audit_log =
      mem.audit_log ++
        [mkLine tso mem.audit_log.length
          ("Thought " ++ toString step ++ ": Deciding to 'execute_immediate'."),
         mkLine tso (mem.audit_log.length + 1)
          ("Action " ++ toString step ++ ": execute_payment(" ++ fmtCents p.immediate_cents
            ++ " " ++ p.currency ++ ")"),
         mkLine tso (mem.audit_log.length + 2)
          ("Observation " ++ toString step ++ ": "
            ++ (tool_execute_payment mem.account p.immediate_cents p.currency (uo step)).msg
            ++ " (txn="
            ++ (tool_execute_payment mem.account p.immediate_cents p.currency (uo step)).txn
            ++ ")")]) ∧
  (∀ p, Reasoner.next_action mem = some "schedule_remainder" → mem.payment_plan = some p →
    (runStep today tso uo step mem).mem.audit_log =
      mem.audit_log ++
        [mkLine tso mem.audit_log.length
          ("Thought " ++ toString step ++ ": Deciding to 'schedule_remainder'."),
         mkLine tso (mem.audit_log.length + 1)
          ("Action " ++ toString step ++ ": schedule_payment(" ++ fmtCents p.scheduled_cents
            ++ " " ++ p.currency ++ " on " ++ fmtDate p.scheduled_date ++ ")"),
         mkLine tso (mem.audit_log.length + 2)
          ("Observation " ++ toString step ++ ": "
            ++ (tool_schedule_payment p.scheduled_date p.scheduled_cents p.currency
              (uo step)).2.1
            ++ " (id="
            ++ (tool_schedule_payment p.scheduled_date p.scheduled_cents p.currency
              (uo step)).2.2
            ++ ")")]) ∧
  (Reasoner.next_action mem = none →
    (runStep today tso uo step mem).mem.audit_log =
      mem.audit_log ++
        [mkLine tso mem.audit_log.length ("Thought " ++ toString step ++ ": Done.")]) ∧
  mem.audit_log <+: (runStep today tso uo step mem).mem.audit_log

/-- C7 (amended): three Thought/Action/Observation lines per non-terminal
iteration, with the exact invocation text (key arguments included) in
the Action line and the handler's message plus any produced identifier
in the Observation line; one Done line for the terminal iteration;
append-only log. -/
theorem iteration_audit_lines (today : Int) (tso uo : Nat → String) (step : Nat) (mem : Memory) :
    iterationAuditSpec today tso uo step mem := by
  have hmain : (∀ a, Reasoner.next_action mem = some a →
      ∃ s1 s2, (runStep today tso uo step mem).mem.audit_log =
        mem.audit_log ++
          [mkLine tso mem.audit_log.length
            ("Thought " ++ toString step ++ ": Deciding to '" ++ a ++ "'."),
           mkLine tso (mem.audit_log.length + 1) ("Action " ++ toString step ++ ": " ++ s1),
           mkLine tso (mem.audit_log.length + 2)
            ("Observation " ++ toString step ++ ": " ++ s2)]) := by
    intro a ha
    rcases nextAction_cases mem with h | h | h | h | h | h | h
    · rw [h] at ha
      exact absurd ha (by simp)
    · rw [h] at ha
      cases ha
      rw [runStep_validate today tso uo step mem h]
      exact ⟨"validate_invoice()", (tool_validate_invoice today mem).2,
        by simp [mkLine, String.append_assoc]⟩
    · rw [h] at ha
      cases ha
      rw [runStep_kyc today tso uo step mem h]
      exact ⟨"run_kyc(" ++ mem.invoice.vendor_id ++ ")", (tool_run_kyc mem.invoice.vendor_id).2,
        by
          simp [mkLine, String.append_assoc]
          rw [← String.append_assoc ": " "run_kyc("]
          simp⟩
    · rw [h] at ha
      cases ha
      rw [runStep_aml today tso uo step mem h]
      exact ⟨"run_aml(" ++ mem.invoice.vendor_id ++ ")",
        (tool_run_aml_screening mem.invoice.vendor_id).2,
        by
          simp [mkLine, String.append_assoc]
          rw [← String.append_assoc ": " "run_aml("]
          simp⟩
    · rw [h] at ha
      cases ha
      rw [runStep_propose today tso uo step mem h]
      exact ⟨"propose_plan()", (tool_propose_plan today mem).2.1,
        by simp [mkLine, String.append_assoc]⟩
    · rw [h] at ha
      cases ha
      obtain ⟨p, hp⟩ := dispatch_plan_exists mem (Or.inl h)
      rw [runStep_exec today tso uo step mem p h hp]
      exact ⟨"execute_payment(" ++ fmtCents p.immediate_cents ++ " " ++ p.currency ++ ")",
        (tool_execute_payment mem.account p.immediate_cents p.currency (uo step)).msg
          ++ " (txn=" ++ (tool_execute_payment mem.account p.immediate_cents p.currency
            (uo step)).txn ++ ")",
        by
          simp [mkLine, String.append_assoc]
          rw [← String.append_assoc ": " "execute_payment("]
          simp⟩
    · rw [h] at ha
      cases ha
      obtain ⟨p, hp⟩ := dispatch_plan_exists mem (Or.inr h)
      rw [runStep_sched today tso uo step mem p h hp]
      exact ⟨"schedule_payment(" ++ fmtCents p.scheduled_cents ++ " " ++ p.currency
          ++ " on " ++ fmtDate p.scheduled_date ++ ")",
        (tool_schedule_payment p.scheduled_date p.scheduled_cents p.currency (uo step)).2.1
          ++ " (id=" ++ (tool_schedule_payment p.scheduled_date p.scheduled_cents p.currency
            (uo step)).2.2 ++ ")",
        by
          simp [mkLine, String.append_assoc]
          rw [← String.append_assoc ": " "schedule_payment("]
          simp⟩
  have hdone : (Reasoner.next_action mem = none →
      (runStep today tso uo step mem).mem.audit_log =
        mem.audit_log ++
          [mkLine tso mem.audit_log.length ("Thought " ++ toString step ++ ": Done.")]) := by
    intro h
    rw [runStep_done today tso uo step mem h]
  refine ⟨hmain, ?_, ?_, ?_, ?_, ?_, ?_, hdone, ?_⟩
  · intro h
    rw [runStep_validate today tso uo step mem h]
  · intro h
    rw [runStep_kyc today tso uo step mem h]
  · intro h
    rw [runStep_aml today tso uo step mem h]
  · intro h
    rw [runStep_propose today tso uo step mem h]
  · intro p h hp
    rw [runStep_exec today tso uo step mem p h hp]
  · intro p h hp
    rw [runStep_sched today tso uo step mem p h hp]
  · rcases hn : Reasoner.next_action mem with _ | a
    · rw [hdone hn]
      exact List.prefix_append _ _
    · obtain ⟨s1, s2, hlog⟩ := hmain a hn
      rw [hlog]
      exact List.prefix_append _ _

/-- A terminal state whose planner is done: validated, screened, plan
satisfied (nothing to execute, nothing to schedule). -/
def memC7 : Memory :=
  { invoice := ⟨"I-7", "V-7", 100, "USD", 0, "m"⟩
    account := ⟨"A-7", 100, 100, 0⟩
    vendor_kyc_ok := some true
    vendor_aml_ok := some true
    payment_plan := some ⟨100, "USD", 0, 0, none⟩
    executed_amount_cents := 0
    scheduled := false
    errors := []
    audit_log := ["T0 | Observation 1: Invoice validated."] }

/-- C7 counterexample: in the iteration where the planner returns done,
the loop appends exactly ONE audit line (the `Done` thought), not three,
so the claim's "includes the final iteration" clause fails. -/
theorem done_iteration_appends_one_line :
    Reasoner.next_action memC7 = none ∧
    memC7.audit_log.length = 1 ∧
    (runStep 0 tsoA uoA 2 memC7).mem.audit_log.length = 2 ∧
    ¬∃ l1 l2 l3, (runStep 0 tsoA uoA 2 memC7).mem.audit_log =
      memC7.audit_log ++ [l1, l2, l3] := by
  refine ⟨by decide, by decide, by decide, ?_⟩
  rintro ⟨l1, l2, l3, hh⟩
  have hlen := congrArg List.length hh
  simp at hlen
  rw [show (runStep 0 tsoA uoA 2 memC7).mem.audit_log.length = 2 from by decide] at hlen
  omega

theorem iteration_audit_lines_witness : iterationAuditSpec 0 tsoA uoA 1 (freshMemory invA acctA) :=
  iteration_audit_lines 0 tsoA uoA 1 (freshMemory invA acctA)

/-!  Substring lemmas used to track the validated-marker audit line. -/

theorem substrSearch_here (pat rest : List Char) : substrSearch pat (pat ++ rest) = true := by
  cases pat with
  | nil => cases rest <;> simp [substrSearch, List.isPrefixOf]
  | cons c cs => simp [substrSearch, List.isPrefixOf_iff_prefix]

theorem substrSearch_append_left (pat s l : List Char) (h : substrSearch pat l = true) :
    substrSearch pat (s ++ l) = true := by
  induction s with
  | nil => simpa using h
  | cons c cs ih => simp [substrSearch, ih]

theorem strContains_append_self (a n : String) : strContains (a ++ n) n = true := by
  unfold strContains
  rw [String.data_append]
  have hbase : substrSearch n.data n.data = true := by
    have := substrSearch_here n.data []
    simpa using this
  exact substrSearch_append_left _ _ _ hbase

theorem execute_ok (acct : Account) (cents : Int) (currency u : String) (h1 : 0 < cents)
    (h2 : cents ≤ acct.balance_cents) :
    (tool_execute_payment acct cents currency u).ok = true := by
  unfold tool_execute_payment
  split_ifs <;> first | rfl | omega

theorem propose_pos_imm_le_balance (today : Int) (mem : Memory)
    (h : 0 < (tool_propose_plan today mem).2.2.immediate_cents) :
    (tool_propose_plan today mem).2.2.immediate_cents ≤ mem.account.balance_cents := by
  unfold tool_propose_plan at *
  dsimp only at h ⊢
  split_ifs at h ⊢ <;> simp_all

theorem run_episode_succ (today : Int) (tso uo : Nat → String) (fuel step : Nat) (mem : Memory) :
    run_episode today tso uo (fuel + 1) step mem =
      if (runStep today tso uo (step + 1) mem).cont then
        ((run_episode today tso uo fuel (step + 1) (runStep today tso uo (step + 1) mem).mem).1,
         (run_episode today tso uo fuel (step + 1) (runStep today tso uo (step + 1) mem).mem).2.1,
         ((runStep today tso uo (step + 1) mem).act, (runStep today tso uo (step + 1) mem).ok) ::
           (run_episode today tso uo fuel (step + 1) (runStep today tso uo (step + 1) mem).mem).2.2)
      else ((runStep today tso uo (step + 1) mem).mem, true,
        [((runStep today tso uo (step + 1) mem).act, (runStep today tso uo (step + 1) mem).ok)]) :=
  rfl

theorem runStep_validate_c (today : Int) (tso uo : Nat → String) (step : Nat) (mem : Memory)
    (h : Reasoner.next_action mem = some "validate_invoice") :
    ∃ x l1 l2, runStep today tso uo step mem =
      ⟨{ mem with audit_log := mem.audit_log ++
          [l1, l2, x ++ (tool_validate_invoice today mem).2] },
        (tool_validate_invoice today mem).1, some "validate_invoice",
        (tool_validate_invoice today mem).1⟩ := by
  refine ⟨tso (mem.audit_log.length + 2) ++ " | " ++ ("Observation " ++ toString step ++ ": "),
    mkLine tso mem.audit_log.length
      ("Thought " ++ toString step ++ ": Deciding to 'validate_invoice'."),
    mkLine tso (mem.audit_log.length + 1) ("Action " ++ toString step ++ ": validate_invoice()"),
    ?_⟩
  rw [runStep_validate today tso uo step mem h]
  simp [mkLine, String.append_assoc]

theorem runStep_kyc_c (today : Int) (tso uo : Nat → String) (step : Nat) (mem : Memory)
    (h : Reasoner.next_action mem = some "run_kyc") :
    ∃ ls, runStep today tso uo step mem =
      ⟨{ mem with
          vendor_kyc_ok := some (tool_run_kyc mem.invoice.vendor_id).1
          audit_log := mem.audit_log ++ ls },
        (tool_run_kyc mem.invoice.vendor_id).1, some "run_kyc",
        (tool_run_kyc mem.invoice.vendor_id).1⟩ :=
  ⟨_, runStep_kyc today tso uo step mem h⟩

theorem runStep_aml_c (today : Int) (tso uo : Nat → String) (step : Nat) (mem : Memory)
    (h : Reasoner.next_action mem = some "run_aml") :
    ∃ ls, runStep today tso uo step mem =
      ⟨{ mem with
          vendor_aml_ok := some (tool_run_aml_screening mem.invoice.vendor_id).1
          audit_log := mem.audit_log ++ ls },
        (tool_run_aml_screening mem.invoice.vendor_id).1, some "run_aml",
        (tool_run_aml_screening mem.invoice.vendor_id).1⟩ :=
  ⟨_, runStep_aml today tso uo step mem h⟩

theorem runStep_propose_c (today : Int) (tso uo : Nat → String) (step : Nat) (mem : Memory)
    (h : Reasoner.next_action mem = some "propose_plan") :
    ∃ ls, runStep today tso uo step mem =
      ⟨{ mem with
          payment_plan := some (tool_propose_plan today mem).2.2
          audit_log := mem.audit_log ++ ls },
        true, some "propose_plan", true⟩ :=
  ⟨_, runStep_propose today tso uo step mem h⟩

theorem runStep_exec_c (today : Int) (tso uo : Nat → String) (step : Nat) (mem : Memory)
    (p : PaymentPlan) (h : Reasoner.next_action mem = some "execute_immediate")
    (hp : mem.payment_plan = some p) :
    ∃ ls, runStep today tso uo step mem =
      ⟨{ mem with
          account := (tool_execute_payment mem.account p.immediate_cents p.currency (uo step)).acct
          executed_amount_cents :=
            if (tool_execute_payment mem.account p.immediate_cents p.currency (uo step)).ok then
              p.immediate_cents
            else mem.executed_amount_cents
          audit_log := mem.audit_log ++ ls },
        true, some "execute_immediate",
        (tool_execute_payment mem.account p.immediate_cents p.currency (uo step)).ok⟩ :=
  ⟨_, runStep_exec today tso uo step mem p h hp⟩

theorem runStep_sched_c (today : Int) (tso uo : Nat → String) (step : Nat) (mem : Memory)
    (p : PaymentPlan) (h : Reasoner.next_action mem = some "schedule_remainder")
    (hp : mem.payment_plan = some p) :
    ∃ ls, runStep today tso uo step mem =
      ⟨{ mem with
          scheduled := true
          audit_log := mem.audit_log ++ ls },
        true, some "schedule_remainder", true⟩ :=
  ⟨_, runStep_sched today tso uo step mem p h hp⟩

theorem validationLogged_extend (m m' : Memory) (ls : List String)
    (hl : m'.audit_log = m.audit_log ++ ls) (h : validationLogged m = true) :
    validationLogged m' = true := by
  unfold validationLogged at *
  rw [hl]
  exact any_append_left _ _ h

theorem validationLogged_marker (m : Memory) (l1 l2 x : String)
    (hl : m.audit_log = l1 :: l2 :: (x ++ "Invoice validated.") :: []) :
    validationLogged m = true := by
  unfold validationLogged
  rw [hl]
  simp [strContains_append_self]

theorem run_from_done (today : Int) (tso uo : Nat → String) (fuel step : Nat) (mem : Memory)
    (h : Reasoner.next_action mem = none) :
    (run_episode today tso uo (fuel + 1) step mem).2.1 = true ∧
    (some "execute_immediate", false) ∉ (run_episode today tso uo (fuel + 1) step mem).2.2 := by
  rw [run_episode_succ, runStep_done today tso uo (step + 1) mem h]
  simp

theorem run_from_settled (today : Int) (tso uo : Nat → String) (fuel step : Nat) (mem : Memory)
    (p : PaymentPlan) (hv : validationLogged mem = true) (bk ba : Bool)
    (hk : mem.vendor_kyc_ok = some bk) (ha : mem.vendor_aml_ok = some ba)
    (hp : mem.payment_plan = some p)
    (hge : ¬mem.executed_amount_cents < p.immediate_cents) :
    (run_episode today tso uo (fuel + 2) step mem).2.1 = true ∧
    (some "execute_immediate", false) ∉ (run_episode today tso uo (fuel + 2) step mem).2.2 := by
  by_cases hterm : mem.scheduled = true ∨ p.scheduled_cents ≤ 0
  · have hdone := na_done mem hv bk ba hk ha p hp hge hterm
    have := run_from_done today tso uo (fuel + 1) step mem hdone
    exact this
  · push_neg at hterm
    obtain ⟨hs, hpos⟩ := hterm
    have hs' : mem.scheduled = false := by
      rcases hb : mem.scheduled with _ | _
      · rfl
      · exact absurd hb hs
    have hsched := na_sched mem hv bk ba hk ha p hp hge hs' (by omega)
    obtain ⟨ls, hstep⟩ := runStep_sched_c today tso uo (step + 1) mem p hsched hp
    rw [show fuel + 2 = (fuel + 1) + 1 from rfl, run_episode_succ, hstep]
    dsimp only
    rw [if_pos rfl]
    have hdone' : Reasoner.next_action
        ({ mem with scheduled := true, audit_log := mem.audit_log ++ ls } : Memory) = none := by
      refine na_done _ ?_ bk ba ?_ ?_ p ?_ ?_ (Or.inl ?_)
      · exact validationLogged_extend mem _ ls (by simp) hv
      · simpa using hk
      · simpa using ha
      · simpa using hp
      · simpa using hge
      · simp
    have hrest := run_from_done today tso uo fuel (step + 1)
      ({ mem with scheduled := true, audit_log := mem.audit_log ++ ls } : Memory) hdone'
    refine ⟨hrest.1, ?_⟩
    simp only [List.mem_cons]
    rintro (hpair | hmem)
    · simp at hpair
    · exact hrest.2 hmem

theorem run_from_planned (today : Int) (tso uo : Nat → String) (fuel step : Nat) (mem : Memory)
    (p : PaymentPlan) (hv : validationLogged mem = true) (bk ba : Bool)
    (hk : mem.vendor_kyc_ok = some bk) (ha : mem.vendor_aml_ok = some ba)
    (hp : mem.payment_plan = some p) (hz : mem.executed_amount_cents = 0)
    (hbal : 0 < p.immediate_cents → p.immediate_cents ≤ mem.account.balance_cents) :
    (run_episode today tso uo (fuel + 3) step mem).2.1 = true ∧
    (some "execute_immediate", false) ∉ (run_episode today tso uo (fuel + 3) step mem).2.2 := by
  by_cases himm : mem.executed_amount_cents < p.immediate_cents
  · have hexec := na_exec mem hv bk ba hk ha p hp himm
    obtain ⟨ls, hstep⟩ := runStep_exec_c today tso uo (step + 1) mem p hexec hp
    have hok : (tool_execute_payment mem.account p.immediate_cents p.currency
        (uo (step + 1))).ok = true :=
      execute_ok mem.account p.immediate_cents p.currency (uo (step + 1))
        (by omega) (hbal (by omega))
    rw [hok] at hstep
    rw [show fuel + 3 = (fuel + 2) + 1 from rfl, run_episode_succ, hstep]
    dsimp only
    rw [if_pos rfl]
    have hrest := run_from_settled today tso uo fuel (step + 1)
      ({ mem with
          account := (tool_execute_payment mem.account p.immediate_cents p.currency
            (uo (step + 1))).acct
          executed_amount_cents := if True then p.immediate_cents else mem.executed_amount_cents
          audit_log := mem.audit_log ++ ls } : Memory) p
      (validationLogged_extend mem _ ls (by simp) hv) bk ba (by simpa using hk)
      (by simpa using ha) (by simpa using hp) (by simp)
    refine ⟨hrest.1, ?_⟩
    simp only [List.mem_cons]
    rintro (hpair | hmem)
    · simp at hpair
    · exact hrest.2 hmem
  · have := run_from_settled today tso uo (fuel + 1) step mem p hv bk ba hk ha hp himm
    exact this

theorem run_from_screened (today : Int) (tso uo : Nat → String) (fuel step : Nat) (mem : Memory)
    (hv : validationLogged mem = true) (bk ba : Bool) (hk : mem.vendor_kyc_ok = some bk)
    (ha : mem.vendor_aml_ok = some ba) (hp : mem.payment_plan = none)
    (hz : mem.executed_amount_cents = 0) :
    (run_episode today tso uo (fuel + 4) step mem).2.1 = true ∧
    (some "execute_immediate", false) ∉ (run_episode today tso uo (fuel + 4) step mem).2.2 := by
  have hpropose := na_propose mem hv bk ba hk ha hp
  obtain ⟨ls, hstep⟩ := runStep_propose_c today tso uo (step + 1) mem hpropose
  rw [show fuel + 4 = (fuel + 3) + 1 from rfl, run_episode_succ, hstep]
  dsimp only
  rw [if_pos rfl]
  have hrest := run_from_planned today tso uo fuel (step + 1)
    ({ mem with
        payment_plan := some (tool_propose_plan today mem).2.2
        audit_log := mem.audit_log ++ ls } : Memory) (tool_propose_plan today mem).2.2
    (validationLogged_extend mem _ ls (by simp) hv) bk ba (by simpa using hk)
    (by simpa using ha) (by simp) (by simpa using hz)
    (fun hpos => by
      simpa using propose_pos_imm_le_balance today mem hpos)
  refine ⟨hrest.1, ?_⟩
  simp only [List.mem_cons]
  rintro (hpair | hmem)
  · simp at hpair
  · exact hrest.2 hmem

theorem run_from_kyc_done (today : Int) (tso uo : Nat → String) (fuel step : Nat) (mem : Memory)
    (hv : validationLogged mem = true) (bk : Bool) (hk : mem.vendor_kyc_ok = some bk)
    (ha : mem.vendor_aml_ok = none) (hp : mem.payment_plan = none)
    (hz : mem.executed_amount_cents = 0) :
    (run_episode today tso uo (fuel + 5) step mem).2.1 = true ∧
    (some "execute_immediate", false) ∉ (run_episode today tso uo (fuel + 5) step mem).2.2 := by
  have haml := na_aml mem hv bk hk ha
  obtain ⟨ls, hstep⟩ := runStep_aml_c today tso uo (step + 1) mem haml
  rw [show fuel + 5 = (fuel + 4) + 1 from rfl, run_episode_succ, hstep]
  dsimp only
  rcases hres : (tool_run_aml_screening mem.invoice.vendor_id).1 with _ | _
  · rw [if_neg (by simp)]
    simp
  · rw [if_pos rfl]
    have hrest := run_from_screened today tso uo fuel (step + 1)
      ({ mem with
          vendor_aml_ok := some true
          audit_log := mem.audit_log ++ ls } : Memory)
      (validationLogged_extend mem _ ls (by simp) hv) bk true (by simpa using hk)
      (by simp) (by simpa using hp) (by simpa using hz)
    refine ⟨hrest.1, ?_⟩
    simp only [List.mem_cons]
    rintro (hpair | hmem)
    · simp at hpair
    · exact hrest.2 hmem

theorem run_from_validated (today : Int) (tso uo : Nat → String) (fuel step : Nat) (mem : Memory)
    (hv : validationLogged mem = true) (hk : mem.vendor_kyc_ok = none)
    (ha : mem.vendor_aml_ok = none) (hp : mem.payment_plan = none)
    (hz : mem.executed_amount_cents = 0) :
    (run_episode today tso uo (fuel + 6) step mem).2.1 = true ∧
    (some "execute_immediate", false) ∉ (run_episode today tso uo (fuel + 6) step mem).2.2 := by
  have hkyc := na_kyc mem hv hk
  obtain ⟨ls, hstep⟩ := runStep_kyc_c today tso uo (step + 1) mem hkyc
  rw [show fuel + 6 = (fuel + 5) + 1 from rfl, run_episode_succ, hstep]
  dsimp only
  rcases hres : (tool_run_kyc mem.invoice.vendor_id).1 with _ | _
  · rw [if_neg (by simp)]
    simp
  · rw [if_pos rfl]
    have hrest := run_from_kyc_done today tso uo fuel (step + 1)
      ({ mem with
          vendor_kyc_ok := some true
          audit_log := mem.audit_log ++ ls } : Memory)
      (validationLogged_extend mem _ ls (by simp) hv) true (by simp)
      (by simpa using ha) (by simpa using hp) (by simpa using hz)
    refine ⟨hrest.1, ?_⟩
    simp only [List.mem_cons]
    rintro (hpair | hmem)
    · simp at hpair
    · exact hrest.2 hmem

/-- The fresh-run property of claim C9: from any freshly constructed
state the episode halts within 7 iterations (fuel 7 reaches `break`),
and no iteration ever dispatches `execute_immediate` with a failing
handler — the insufficient-funds branch is unreachable from fresh
states. -/
def freshRunSpec (today : Int) (tso uo : Nat → String) (inv : Invoice) (acct : Account) : Prop :=
  (run_episode today tso uo 7 0 (freshMemory inv acct)).2.1 = true ∧
  (some "execute_immediate", false) ∉ (run_episode today tso uo 7 0 (freshMemory inv acct)).2.2

/-- C9: every fresh episode terminates (in at most 7 iterations), and the
insufficient-funds failure of `tool_execute_payment` never occurs in such
a run, because the proposed plan's positive immediate portion is bounded
by the account balance, which no step changes between proposal and
execution. -/
theorem fresh_run_terminates (today : Int) (tso uo : Nat → String) (inv : Invoice)
    (acct : Account) : freshRunSpec today tso uo inv acct := by
  unfold freshRunSpec
  have h0 : Reasoner.next_action (freshMemory inv acct) = some "validate_invoice" :=
    na_validate _ (by simp [validationLogged, freshMemory])
  obtain ⟨x, l1, l2, hstep⟩ := runStep_validate_c today tso uo (0 + 1) (freshMemory inv acct) h0
  rw [show (7 : Nat) = 6 + 1 from rfl, run_episode_succ, hstep]
  dsimp only
  rcases hres : (tool_validate_invoice today (freshMemory inv acct)).1 with _ | _
  · rw [if_neg (by simp)]
    simp
  · rw [if_pos rfl]
    have hmsg := tool_validate_true_msg today (freshMemory inv acct) hres
    rw [hmsg]
    have hrest := run_from_validated today tso uo 0 (0 + 1)
      ({ freshMemory inv acct with
          audit_log := (freshMemory inv acct).audit_log ++
            [l1, l2, x ++ "Invoice validated."] } : Memory)
      (validationLogged_marker _ l1 l2 x (by simp [freshMemory])) (by simp [freshMemory])
      (by simp [freshMemory]) (by simp [freshMemory]) (by simp [freshMemory])
    refine ⟨hrest.1, ?_⟩
    simp only [List.mem_cons]
    rintro (hpair | hmem)
    · simp at hpair
    · exact hrest.2 hmem

theorem fresh_run_terminates_witness : freshRunSpec 0 tsoA uoA invA acctA :=
  fresh_run_terminates 0 tsoA uoA invA acctA
